import Mathlib

/-!
Verification of the highlight-to-token encoder of a typst language server.

The development shallowly embeds the two source files of the repository:
`src/tokens.rs` (the semantic-token category enum together with its wire
index and legend name) and `src/main.rs` (the recursive tree walk
`traverse_highlight_rec` that turns a classified syntax tree into the
delta-encoded token stream, plus the request handlers that consult the
document map).

Modelling conventions:
* Rust `u32`/`usize` counters become `Nat`; the encoder only ever adds
  to them (no subtraction, no wrap-around is reachable for any document
  smaller than 4 GiB), so overflow is outside the modelled range.
* Rust `&str` text becomes `List Char`; `str::len` (UTF-8 byte count)
  is `strLen`, `split('\n')`, `matches('\n').count()` and
  `contains('\n')` are `splitNl`, `countNewlines` and `containsNl`.
* The parser and the classifier are external collaborators; a tree node
  therefore carries its classifier result (`highlight(&node).into()`)
  as the field `tag`.
* The syntax tree is a mutual inductive (`SyntaxNode` / `NodeList`) so
  that every function on it is structurally recursive and reduces in
  the kernel.
-/

namespace TypstSemTok

/-- Structural node kinds of the syntax tree that the encoder inspects
(`SyntaxKind` in the source); kinds the encoder never distinguishes are
collapsed into representative constructors. -/
inductive SyntaxKind where
  | Markup
  | Space
  | Parbreak
  | Raw
  | Text
  | Strong
  | Emph
  | Heading
  | Error
  | Other
  deriving DecidableEq, Repr

/-- The closed ordered category set from `src/tokens.rs`
(`TypstSemanticToken`), declaration order preserved. -/
inductive TypstSemanticToken where
  | Comment
  | Punctuation
  | Escape
  | Strong
  | Emph
  | Link
  | Raw
  | Label
  | Ref
  | Heading
  | ListMarker
  | ListTerm
  | MathDelimiter
  | MathOperator
  | Keyword
  | Operator
  | Number
  | String
  | Function
  | Interpolated
  | Error
  | None
  deriving DecidableEq, Repr

/-- Source `ToSemanticToken::to_idx`: the `repr(u32)` discriminant of the
variant, i.e. its position in declaration order. -/
def to_idx : TypstSemanticToken → Nat
  | .Comment => 0
  | .Punctuation => 1
  | .Escape => 2
  | .Strong => 3
  | .Emph => 4
  | .Link => 5
  | .Raw => 6
  | .Label => 7
  | .Ref => 8
  | .Heading => 9
  | .ListMarker => 10
  | .ListTerm => 11
  | .MathDelimiter => 12
  | .MathOperator => 13
  | .Keyword => 14
  | .Operator => 15
  | .Number => 16
  | .String => 17
  | .Function => 18
  | .Interpolated => 19
  | .Error => 20
  | .None => 21

/-- Source `ToSemanticToken::to_name`: the `IntoStaticStr` derive yields the
variant's own name. -/
def to_name : TypstSemanticToken → String
  | .Comment => "Comment"
  | .Punctuation => "Punctuation"
  | .Escape => "Escape"
  | .Strong => "Strong"
  | .Emph => "Emph"
  | .Link => "Link"
  | .Raw => "Raw"
  | .Label => "Label"
  | .Ref => "Ref"
  | .Heading => "Heading"
  | .ListMarker => "ListMarker"
  | .ListTerm => "ListTerm"
  | .MathDelimiter => "MathDelimiter"
  | .MathOperator => "MathOperator"
  | .Keyword => "Keyword"
  | .Operator => "Operator"
  | .Number => "Number"
  | .String => "String"
  | .Function => "Function"
  | .Interpolated => "Interpolated"
  | .Error => "Error"
  | .None => "None"

/-- The `EnumIter` iteration order: all variants in declaration order. -/
def allCategories : List TypstSemanticToken :=
  [.Comment, .Punctuation, .Escape, .Strong, .Emph, .Link, .Raw, .Label,
   .Ref, .Heading, .ListMarker, .ListTerm, .MathDelimiter, .MathOperator,
   .Keyword, .Operator, .Number, .String, .Function, .Interpolated,
   .Error, .None]

/-- The legend advertised in `initialize`:
`TypstSemanticToken::iter().map(|var| SemanticTokenType::new(var.to_name()))`. -/
def token_types_legend : List String :=
  allCategories.map to_name

/-! ### Text utilities (Rust `&str` semantics over `List Char`) -/

/-- UTF-8 encoded size of one scalar value. -/
def charUtf8Size (c : Char) : Nat :=
  if c.toNat < 0x80 then 1
  else if c.toNat < 0x800 then 2
  else if c.toNat < 0x10000 then 3
  else 4

/-- Rust `str::len`: length in UTF-8 bytes. -/
def strLen (t : List Char) : Nat :=
  (t.map charUtf8Size).sum

/-- Length in UTF-16 code units, the unit the editor protocol counts
character offsets in. -/
def utf16Len (t : List Char) : Nat :=
  (t.map fun c => if c.toNat < 0x10000 then 1 else 2).sum

/-- Rust `text.contains("\n")`. -/
def containsNl (t : List Char) : Bool :=
  t.contains '\n'

/-- Rust `text.matches("\n").count()`. -/
def countNewlines (t : List Char) : Nat :=
  t.countP (fun c => c == '\n')

/-- Rust `text.split("\n")`: the newline-separated segments; always
nonempty (the empty text splits into one empty segment). -/
def splitNl : List Char → List (List Char)
  | [] => [[]]
  | c :: rest =>
    match splitNl rest with
    | [] => [[]]
    | s :: ss => if c = '\n' then [] :: s :: ss else (c :: s) :: ss

/-- Last element of a list, or the supplied default when empty. -/
def lastOr {α : Type} (d : α) : List α → α
  | [] => d
  | a :: l => lastOr a l

/-- Rust `text.split("\n").last()`: the text following the last line break
(the whole text when there is none; `split` always yields at least one
segment, so Rust's `map_or` default is never taken). -/
def lastSeg (t : List Char) : List Char :=
  lastOr [] (splitNl t)

/-! ### The syntax tree -/

mutual
/-- A parsed syntax node: structural kind, classifier result
(`highlight(&node)`, an external pure function of the node in context),
the literal text (leaves only; in the source `SyntaxNode::text()`
returns the empty string for inner nodes), and the ordered children. -/
inductive SyntaxNode : Type where
  | mk (kind : SyntaxKind) (tag : TypstSemanticToken) (text : List Char)
       (children : NodeList)
/-- Ordered children of a node (kept as a mutual inductive so that all
recursion over the tree is structural). -/
inductive NodeList : Type where
  | nil
  | cons (head : SyntaxNode) (tail : NodeList)
end

def SyntaxNode.kind : SyntaxNode → SyntaxKind
  | .mk k _ _ _ => k

def SyntaxNode.tag : SyntaxNode → TypstSemanticToken
  | .mk _ t _ _ => t

def SyntaxNode.children : SyntaxNode → NodeList
  | .mk _ _ _ cs => cs

/-- Source `LinkedNode::text()`: the node's own text — nonempty only for
leaves; inner nodes answer the empty string. -/
def nodeText : SyntaxNode → List Char
  | .mk _ _ x .nil => x
  | .mk _ _ _ (.cons _ _) => []

mutual
/-- Source `node.range().len()`: the byte length of the node's span. A leaf
spans its text; an inner node's range is the union of its children's
ranges (the data-model invariant), hence the sum of their lengths. -/
def rangeLen : SyntaxNode → Nat
  | .mk _ _ x .nil => strLen x
  | .mk _ _ _ (.cons c cs) => rangeLenList (.cons c cs)
def rangeLenList : NodeList → Nat
  | .nil => 0
  | .cons c cs => rangeLen c + rangeLenList cs
end

mutual
/-- The source text spanned by a node (concatenation of its leaves'
texts, in order). -/
def spanText : SyntaxNode → List Char
  | .mk _ _ x .nil => x
  | .mk _ _ _ (.cons c cs) => spanTextList (.cons c cs)
def spanTextList : NodeList → List Char
  | .nil => []
  | .cons c cs => spanText c ++ spanTextList cs
end

/-! ### The encoder (`src/main.rs`) -/

/-- Source `HighlightFeedForward`: the pending (line, column) gap accumulated
since the last emitted token. -/
structure HighlightFeedForward where
  delta_line : Nat
  delta_start : Nat
  deriving DecidableEq, Repr

/-- One wire-level token
(`lsp_types::SemanticToken`): deltas, length, type index, modifiers. -/
structure SemanticToken where
  delta_line : Nat
  delta_start : Nat
  length : Nat
  token_type : Nat
  token_modifiers_bitset : Nat
  deriving DecidableEq, Repr

/-- The token pushed for the node itself: none when the classifier
answered "no category", otherwise one token whose deltas are the
pending gap, whose length is the node's span length and whose type is
the category's index. -/
def emitTok (tag : TypstSemanticToken) (node_len : Nat)
    (ff : HighlightFeedForward) : List SemanticToken :=
  if tag = TypstSemanticToken.None then []
  else [{ delta_line := ff.delta_line, delta_start := ff.delta_start,
          length := node_len, token_type := to_idx tag,
          token_modifiers_bitset := 0 }]

/-- Value `skip_line` of the source: the pending line gap carried past the
node (unchanged when nothing was emitted, reset after a token). -/
def skipLine (tag : TypstSemanticToken) (ff : HighlightFeedForward) : Nat :=
  if tag = TypstSemanticToken.None then ff.delta_line else 0

/-- Value `skip_start` of the source: the pending column gap carried past
the node (grown by the node's length when nothing was emitted, reset
to the node's length after a token). -/
def skipStart (tag : TypstSemanticToken) (node_len : Nat)
    (ff : HighlightFeedForward) : Nat :=
  if tag = TypstSemanticToken.None then ff.delta_start + node_len else node_len

/-- The per-line tokens of a multiline raw block: one `Raw` token for
every line after the first, each with line delta 1 and column delta 0. -/
def rawLineTokens (text : List Char) : List SemanticToken :=
  ((splitNl text).drop 1).map fun line =>
    { delta_line := 1, delta_start := 0, length := strLen line,
      token_type := to_idx TypstSemanticToken.Raw,
      token_modifiers_bitset := 0 }

/-- The emission tail of `traverse_highlight_rec`, reached for a leaf
node or for a `Strong`/`Emph`-tagged node: pushes at most one token for
the node itself, handles the embedded-newline special cases, and
returns the tokens pushed here together with the outgoing feed-forward
state.  `text` is `node.text()` and `node_len` is
`node.range().len()`. -/
def emitNode (kind : SyntaxKind) (tag : TypstSemanticToken)
    (text : List Char) (node_len : Nat) (ff : HighlightFeedForward) :
    List SemanticToken × HighlightFeedForward :=
  if (kind = SyntaxKind.Space ∨ kind = SyntaxKind.Parbreak) ∧ containsNl text then
    -- one or more linebreaks; spaces may remain at the start of the last line
    (emitTok tag node_len ff,
     { delta_line := skipLine tag ff + countNewlines text,
       delta_start := strLen (lastSeg text) })
  else if kind = SyntaxKind.Raw ∧ containsNl text then
    -- multiline raw block: mark each included line (after the first) as raw
    (emitTok tag node_len ff ++ rawLineTokens text,
     { delta_line := 0, delta_start := strLen (lastSeg text) })
  else
    (emitTok tag node_len ff,
     { delta_line := skipLine tag ff, delta_start := skipStart tag node_len ff })

mutual
/-- Source `traverse_highlight_rec`: unless the node's classifier tag is a
wrapper category (`Emph`/`Strong`), recurse into the children and, when
there are any, return their result; otherwise (leaf, or wrapper) run
the emission tail on the node itself. -/
def traverse_highlight_rec (node : SyntaxNode) (ff : HighlightFeedForward) :
    List SemanticToken × HighlightFeedForward :=
  match node with
  | .mk kind tag text .nil =>
    -- the children loop runs over nothing; fall through to emission
    emitNode kind tag text (strLen text) ff
  | .mk kind tag _ (.cons c cs) =>
    if tag = TypstSemanticToken.Emph ∨ tag = TypstSemanticToken.Strong then
      -- emph and strong are highlighted as one group; children skipped
      emitNode kind tag [] (rangeLenList (.cons c cs)) ff
    else
      traverse_children (.cons c cs) ff
/-- The `for child in children` loop: thread the feed-forward state
left to right, concatenating the emitted tokens. -/
def traverse_children (l : NodeList) (ff : HighlightFeedForward) :
    List SemanticToken × HighlightFeedForward :=
  match l with
  | .nil => ([], ff)
  | .cons c cs =>
    have r1 := traverse_highlight_rec c ff
    have r2 := traverse_children cs r1.2
    (r1.1 ++ r2.1, r2.2)
end

/-- Source `traverse_highlight`: run the walk from the root with the absolute
origin (0, 0) as the initial gap. -/
def traverse_highlight (node : SyntaxNode) : List SemanticToken :=
  (traverse_highlight_rec node { delta_line := 0, delta_start := 0 }).1

/-! ### Decoding the delta stream into absolute positions -/

/-- The absolute (line, column) start of a token, given the absolute
start of the previous token (per the wire protocol: a zero line delta
means same line, column delta relative to the previous start; a
positive line delta moves down and restarts the column). -/
def advance (p : Nat × Nat) (t : SemanticToken) : Nat × Nat :=
  if t.delta_line = 0 then (p.1, p.2 + t.delta_start)
  else (p.1 + t.delta_line, t.delta_start)

/-- Decode a token list into ((line, column), length) triples, the
previous token starting at `p`. -/
def decodeFrom : (Nat × Nat) → List SemanticToken → List ((Nat × Nat) × Nat)
  | _, [] => []
  | p, t :: ts => (advance p t, t.length) :: decodeFrom (advance p t) ts

/-- Decode a whole stream: the first token's deltas are absolute, i.e.
relative to the document start (0, 0). -/
def decodeTokens (ts : List SemanticToken) : List ((Nat × Nat) × Nat) :=
  decodeFrom (0, 0) ts

/-- Spans do not overlap: the second token starts on a later line, or
on the same line at or beyond the end of the first token's span. -/
def spanFits (a b : (Nat × Nat) × Nat) : Prop :=
  a.1.1 < b.1.1 ∨ (a.1.1 = b.1.1 ∧ a.1.2 + a.2 ≤ b.1.2)

/-- Positions are strictly increasing in document order. -/
def strictPos (a b : (Nat × Nat) × Nat) : Prop :=
  a.1.1 < b.1.1 ∨ (a.1.1 = b.1.1 ∧ a.1.2 < b.1.2)

/-- Positions are non-decreasing in document order. -/
def posLe (a b : (Nat × Nat) × Nat) : Prop :=
  a.1.1 < b.1.1 ∨ (a.1.1 = b.1.1 ∧ a.1.2 ≤ b.1.2)

/-! ### The traversal invariant behind the ordering property -/

/-- Each token either moves to a later line or starts at or beyond the
end of its predecessor, the first predecessor span length being `p`:
the local condition whose running decoding never overlaps. -/
def chainFrom (p : Nat) : List SemanticToken → Prop
  | [] => True
  | u :: ts => (0 < u.delta_line ∨ p ≤ u.delta_start) ∧ chainFrom u.length ts

/-- The pending gap either already crossed a line break or has grown
past the previous token's span (length `p`). -/
def okAfter (p : Nat) (ff : HighlightFeedForward) : Prop :=
  0 < ff.delta_line ∨ p ≤ ff.delta_start

/-- Length of the last token of the list, or `p` when there is none. -/
def lastLenD (p : Nat) : List SemanticToken → Nat
  | [] => p
  | t :: ts => lastLenD t.length ts

/-- The invariant carried by one traversal step: the emitted segment is
internally chained against incoming predecessor length `p`, and the
outgoing gap is armed against the segment's own last token. -/
def SegOk (p : Nat) (r : List SemanticToken × HighlightFeedForward) : Prop :=
  chainFrom p r.1 ∧ okAfter (lastLenD p r.1) r.2

/-! ### Concrete documents and the request-handler model used by the claims -/

/-- A document with a single classified leaf, used to instantiate C1. -/
def c1wit : SyntaxNode := .mk .Text .Link ['x'] .nil

/-- Counterexample input for the strictness part of C1: a raw block
whose text ends in a line break, followed by a classified leaf. -/
def c1ex : SyntaxNode :=
  .mk .Markup .None []
    (.cons (.mk .Raw .Raw ['a', '\n'] .nil)
      (.cons (.mk .Text .Link ['x'] .nil) .nil))

mutual
/-- Every node of the tree is unclassified ("no category"). -/
def allNone : SyntaxNode → Bool
  | .mk _ tag _ cs => (tag == TypstSemanticToken.None) && allNoneList cs
def allNoneList : NodeList → Bool
  | .nil => true
  | .cons c cs => allNone c && allNoneList cs
end

mutual
/-- No leaf of the tree is a raw-text block containing a line break
(such a leaf emits per-line tokens even when unclassified). -/
def noRawNl : SyntaxNode → Bool
  | .mk kind _ text .nil => !((kind == SyntaxKind.Raw) && containsNl text)
  | .mk _ _ _ (.cons c cs) => noRawNlList (.cons c cs)
def noRawNlList : NodeList → Bool
  | .nil => true
  | .cons c cs => noRawNl c && noRawNlList cs
end

/-- Counterexample input for C2 as stated: an unclassified whitespace
leaf containing a line break. -/
def c2ex : SyntaxNode := .mk .Space .None ['\n'] .nil

/-- An emphasis wrapper with three structural children: open marker,
inner text, close marker. -/
def c3ex : SyntaxNode :=
  .mk .Emph .Emph []
    (.cons (.mk .Other .Punctuation ['_'] .nil)
      (.cons (.mk .Text .None ['h', 'i'] .nil)
        (.cons (.mk .Other .Punctuation ['_'] .nil) .nil)))

/-- A strong wrapper whose inner text spans two lines. -/
def c10ex : SyntaxNode :=
  .mk .Strong .Strong []
    (.cons (.mk .Other .Punctuation ['*'] .nil)
      (.cons (.mk .Text .None ['a', '\n', 'b'] .nil)
        (.cons (.mk .Other .Punctuation ['*'] .nil) .nil)))

/-- The two-line raw block "ab\ncd". -/
def c4ex : SyntaxNode := .mk .Raw .Raw ['a', 'b', '\n', 'c', 'd'] .nil

/-- A single classified leaf containing 'é' (U+00E9): two UTF-8 bytes
but one UTF-16 code unit. -/
def c6ex : SyntaxNode := .mk .Text .Link ['é'] .nil

/-- The per-process `document_map` (`DashMap<Url, Rope>`), modelled as
an association list from uri to document text. -/
abbrev DocumentMap := List (String × List Char)

/-- Rust `self.document_map.get(&uri)`. -/
def mapGet (m : DocumentMap) (uri : String) : Option (List Char) :=
  (m.find? (fun e => e.1 == uri)).map (fun e => e.2)

/-- Replace the text stored under `uri` (the entry exists). -/
def mapSet (m : DocumentMap) (uri : String) (text : List Char) :
    DocumentMap :=
  m.map (fun e => if e.1 == uri then (e.1, text) else e)

/-- Result of serving one request: a normal result, or the process
aborting because `.unwrap()` observed a missing map entry. -/
inductive ServerOutcome (α : Type) where
  | ok (value : α)
  | panicked
  deriving DecidableEq

/-- One entry of `content_changes`: optional (start, end) line/column
range, and the replacement text. -/
structure ContentChange where
  range : Option ((Nat × Nat) × (Nat × Nat))
  text : List Char

/-- Source `Rope::line_to_char`: the character index at which the given line
starts (the out-of-range case, where ropey would panic, is clamped and
is outside the modelled behaviour). -/
def lineToChar : List Char → Nat → Nat
  | _, 0 => 0
  | [], _ + 1 => 0
  | ch :: rest, line + 1 =>
    1 + lineToChar rest (if ch = '\n' then line else line + 1)

/-- One iteration of the change loop: with a range, remove the
addressed character span and insert the replacement at its start; with
no range, replace the whole document. -/
def applyChange (text : List Char) (change : ContentChange) : List Char :=
  match change.range with
  | Option.none => change.text
  | Option.some ((sl, sc), (el, ec)) =>
    (text.take (lineToChar text sl + sc)) ++ change.text ++
      (text.drop (lineToChar text el + ec))

/-- Source `semantic_tokens_full`: read the uri's text — the source unwraps
the map entry, so a missing entry aborts the process — then parse
(external collaborator) and encode from the tree root. -/
def semantic_tokens_full (store : DocumentMap) (uri : String)
    (parse : List Char → SyntaxNode) : ServerOutcome (List SemanticToken) :=
  match mapGet store uri with
  | Option.none => ServerOutcome.panicked
  | Option.some text => ServerOutcome.ok (traverse_highlight (parse text))

/-- Source `did_change`: look up the uri — the source unwraps the map entry,
so a missing entry aborts the process — then fold the changes over the
rope in the order given. -/
def did_change (store : DocumentMap) (uri : String)
    (changes : List ContentChange) : ServerOutcome DocumentMap :=
  match mapGet store uri with
  | Option.none => ServerOutcome.panicked
  | Option.some text =>
    ServerOutcome.ok (mapSet store uri (changes.foldl applyChange text))

/-- A total parser stand-in (the parser is an external collaborator);
the unopened-uri path never reaches it. -/
def anyParse (t : List Char) : SyntaxNode := .mk .Markup .None t .nil

/-- The scenario tree for the source `"# Title\n*bold* word"` as
delivered by the external parser and classifier: a heading covering
`# Title` classified Heading, a newline whitespace leaf, a strong
wrapper covering `*bold*` (children: open marker, inner text, close
marker), a space, and an unclassified word. -/
def c8ex : SyntaxNode :=
  .mk .Markup .None []
    (.cons (.mk .Heading .Heading ['#', ' ', 'T', 'i', 't', 'l', 'e'] .nil)
      (.cons (.mk .Space .None ['\n'] .nil)
        (.cons (.mk .Strong .Strong []
            (.cons (.mk .Other .Punctuation ['*'] .nil)
              (.cons (.mk .Text .None ['b', 'o', 'l', 'd'] .nil)
                (.cons (.mk .Other .Punctuation ['*'] .nil) .nil))))
          (.cons (.mk .Space .None [' '] .nil)
            (.cons (.mk .Text .None ['w', 'o', 'r', 'd'] .nil) .nil)))))

/-- A single keyword leaf, used to instantiate C9. -/
def c9ex : SyntaxNode := .mk .Other .Keyword ['#', 'l', 'e', 't'] .nil

/-! ### Supporting lemmas -/

theorem lastLenD_append (l₁ l₂ : List SemanticToken) :
    ∀ p, lastLenD p (l₁ ++ l₂) = lastLenD (lastLenD p l₁) l₂ := by
  induction l₁ with
  | nil => intro p; rfl
  | cons t l ih => intro p; exact ih t.length

theorem chainFrom_append (l₁ l₂ : List SemanticToken) :
    ∀ p, chainFrom p l₁ → chainFrom (lastLenD p l₁) l₂ → chainFrom p (l₁ ++ l₂) := by
  induction l₁ with
  | nil => intro p _ h₂; exact h₂
  | cons t l ih =>
    intro p h₁ h₂
    exact ⟨h₁.1, ih t.length h₁.2 h₂⟩

theorem lastOr_irrel {α : Type} (l : List α) (h : l ≠ []) (d d' : α) :
    lastOr d l = lastOr d' l := by
  cases l with
  | nil => exact absurd rfl h
  | cons a l => rfl

theorem splitNl_ne_nil (t : List Char) : splitNl t ≠ [] := by
  cases t with
  | nil => simp [splitNl]
  | cons c rest =>
    rw [splitNl]
    cases splitNl rest with
    | nil => simp
    | cons s ss =>
      by_cases hc : c = '\n' <;> simp [hc]

theorem splitNl_length (t : List Char) :
    (splitNl t).length = countNewlines t + 1 := by
  induction t with
  | nil => rfl
  | cons c rest ih =>
    rw [splitNl]
    cases hs : splitNl rest with
    | nil => exact absurd hs (splitNl_ne_nil rest)
    | cons s ss =>
      rw [hs] at ih
      by_cases hc : c = '\n'
      · subst hc
        simp only [ite_true, List.length_cons, countNewlines,
          List.countP_cons] at ih ⊢
        simp only [beq_self_eq_true, if_true]
        omega
      · have hb : (c == '\n') = false := by simp [hc]
        simp [hc, countNewlines, List.countP_cons, hb] at ih ⊢
        omega

theorem countNewlines_pos (t : List Char) (h : containsNl t = true) :
    0 < countNewlines t := by
  induction t with
  | nil => simp [containsNl] at h
  | cons c rest ih =>
    by_cases hc : c = '\n'
    · subst hc
      simp only [countNewlines, List.countP_cons, beq_self_eq_true, if_true]
      omega
    · have hb : (c == '\n') = false := by simp [hc]
      have hr : containsNl rest = true := by
        rw [containsNl, List.contains_cons] at h
        rcases Bool.or_eq_true_iff.mp h with h' | h'
        · exact absurd (beq_iff_eq.mp h').symm hc
        · exact h'
      have hpos := ih hr
      simp only [countNewlines, List.countP_cons] at hpos ⊢
      omega

theorem chainFrom_map_raw (lines : List (List Char)) :
    ∀ p, chainFrom p (lines.map fun line =>
      ({ delta_line := 1, delta_start := 0, length := strLen line,
         token_type := to_idx TypstSemanticToken.Raw,
         token_modifiers_bitset := 0 } : SemanticToken)) := by
  induction lines with
  | nil => intro p; trivial
  | cons a l ih => intro p; exact ⟨Or.inl Nat.one_pos, ih (strLen a)⟩

theorem lastLenD_map_raw :
    ∀ (lines : List (List Char)) (p : Nat) (d : List Char), lines ≠ [] →
      lastLenD p (lines.map fun line =>
        ({ delta_line := 1, delta_start := 0, length := strLen line,
           token_type := to_idx TypstSemanticToken.Raw,
           token_modifiers_bitset := 0 } : SemanticToken)) =
        strLen (lastOr d lines) := by
  intro lines
  induction lines with
  | nil => intro p d hne; exact absurd rfl hne
  | cons a l ih =>
    intro p d _
    cases l with
    | nil => rfl
    | cons b l' => exact ih (strLen a) a (by simp)

theorem lastLenD_rawLineTokens (text : List Char) (h : containsNl text = true)
    (p : Nat) : lastLenD p (rawLineTokens text) = strLen (lastSeg text) := by
  rw [rawLineTokens, lastSeg]
  cases hs : splitNl text with
  | nil => exact absurd hs (splitNl_ne_nil text)
  | cons s ss =>
    have hlen := splitNl_length text
    have hpos := countNewlines_pos text h
    rw [hs] at hlen
    have hss : ss ≠ [] := by
      cases ss with
      | nil => simp at hlen; omega
      | cons b l => simp
    simp only [List.drop_succ_cons, List.drop_zero]
    have hlast : lastOr ([] : List Char) (s :: ss) = lastOr s ss := rfl
    rw [hlast]
    exact lastLenD_map_raw ss p s hss

theorem emit_segOk (kind : SyntaxKind) (tag : TypstSemanticToken)
    (text : List Char) (node_len : Nat) (ff : HighlightFeedForward)
    (p : Nat) (h : okAfter p ff) :
    SegOk p (emitNode kind tag text node_len ff) := by
  rw [emitNode]
  split_ifs with h1 h2
  · -- whitespace containing line breaks
    have hcnt := countNewlines_pos text h1.2
    by_cases ht : tag = TypstSemanticToken.None
    · simp only [emitTok, skipLine, ht, if_true, ite_true]
      refine ⟨trivial, Or.inl ?_⟩
      rcases h with h | h
      · simp only [lastLenD]; omega
      · simp only [lastLenD]; omega
    · simp only [emitTok, skipLine, ht, if_false, ite_false]
      exact ⟨⟨h, trivial⟩, Or.inl (by simpa using hcnt)⟩
  · -- multiline raw block
    by_cases ht : tag = TypstSemanticToken.None
    · simp only [emitTok, ht, ite_true, List.nil_append]
      refine ⟨?_, ?_⟩
      · rw [rawLineTokens]; exact chainFrom_map_raw _ p
      · rw [lastLenD_rawLineTokens text h2.2 p]
        exact Or.inr (Nat.le_refl _)
    · simp only [emitTok, ht, ite_false, List.singleton_append]
      refine ⟨⟨h, ?_⟩, ?_⟩
      · rw [rawLineTokens]; exact chainFrom_map_raw _ node_len
      · simp only [lastLenD]
        rw [lastLenD_rawLineTokens text h2.2 node_len]
        exact Or.inr (Nat.le_refl _)
  · -- no embedded newline handling
    by_cases ht : tag = TypstSemanticToken.None
    · simp only [emitTok, skipLine, skipStart, ht, ite_true]
      refine ⟨trivial, ?_⟩
      rcases h with h | h
      · exact Or.inl h
      · exact Or.inr (Nat.le_trans h (Nat.le_add_right _ _))
    · simp only [emitTok, skipLine, skipStart, ht, ite_false]
      exact ⟨⟨h, trivial⟩, Or.inr (Nat.le_refl _)⟩

mutual
theorem rec_segOk (n : SyntaxNode) (ff : HighlightFeedForward) (p : Nat)
    (h : okAfter p ff) : SegOk p (traverse_highlight_rec n ff) := by
  cases n with
  | mk kind tag text children =>
    cases children with
    | nil =>
      simp only [traverse_highlight_rec]
      exact emit_segOk kind tag text (strLen text) ff p h
    | cons c cs =>
      simp only [traverse_highlight_rec]
      by_cases hw : tag = TypstSemanticToken.Emph ∨ tag = TypstSemanticToken.Strong
      · rw [if_pos hw]
        exact emit_segOk kind tag [] (rangeLenList (.cons c cs)) ff p h
      · rw [if_neg hw]
        exact children_segOk (.cons c cs) ff p h
theorem children_segOk (l : NodeList) (ff : HighlightFeedForward) (p : Nat)
    (h : okAfter p ff) : SegOk p (traverse_children l ff) := by
  cases l with
  | nil => exact ⟨trivial, h⟩
  | cons c cs =>
    simp only [traverse_children]
    have h1 := rec_segOk c ff p h
    have h2 := children_segOk cs (traverse_highlight_rec c ff).2
      (lastLenD p (traverse_highlight_rec c ff).1) h1.2
    refine ⟨chainFrom_append _ _ p h1.1 h2.1, ?_⟩
    rw [lastLenD_append]
    exact h2.2
end

/-- The whole encoder output is chained from the zero-length virtual
token at the document origin. -/
theorem traverse_chainFrom (root : SyntaxNode) :
    chainFrom 0 (traverse_highlight root) :=
  (rec_segOk root { delta_line := 0, delta_start := 0 } 0
    (Or.inr (Nat.le_refl 0))).1

theorem chainedTok_fits (pos : Nat × Nat) (t u : SemanticToken)
    (hu : 0 < u.delta_line ∨ t.length ≤ u.delta_start) :
    spanFits (advance pos t, t.length)
      (advance (advance pos t) u, u.length) := by
  generalize advance pos t = q
  by_cases hz : u.delta_line = 0
  · simp only [spanFits, advance, if_pos hz, true_and]
    omega
  · simp only [spanFits, advance, if_neg hz, true_and]
    omega

theorem decodeFrom_fits :
    ∀ (ts : List SemanticToken) (q : Nat), chainFrom q ts →
      ∀ pos : Nat × Nat, List.Chain' spanFits (decodeFrom pos ts)
  | [], _, _, pos => by simp [decodeFrom]
  | [t], _, _, pos => by simp [decodeFrom]
  | t :: u :: ts, q, hch, pos => by
    have hrest := decodeFrom_fits (u :: ts) t.length hch.2 (advance pos t)
    simp only [decodeFrom] at hrest ⊢
    exact List.chain'_cons.mpr ⟨chainedTok_fits pos t u hch.2.1, hrest⟩

/-! ### Claim C1 -/

/-- C1 (amended): for every syntax tree, the token sequence produced by
`traverse_highlight` decodes (running sum of deltas, starting absolute
at the document origin) to positions that are non-decreasing in
document order, with the spans of consecutive tokens never overlapping
(each token starts on a later line than its predecessor, or at or
beyond the predecessor's span end on the same line), and every emitted
delta non-negative.  Strict increase of positions does not hold in
general (see the counterexample); it fails only where a token of length
zero is emitted at the same position as its successor. -/
theorem c1_token_stream_ordered (root : SyntaxNode) :
    List.Chain' spanFits (decodeTokens (traverse_highlight root)) ∧
    List.Chain' posLe (decodeTokens (traverse_highlight root)) ∧
    ∀ t ∈ traverse_highlight root, 0 ≤ t.delta_line ∧ 0 ≤ t.delta_start := by
  have hfits : List.Chain' spanFits (decodeTokens (traverse_highlight root)) :=
    decodeFrom_fits (traverse_highlight root) 0 (traverse_chainFrom root) (0, 0)
  refine ⟨hfits, ?_, ?_⟩
  · refine hfits.imp (fun a b hab => ?_)
    rcases hab with hab | ⟨he, hle⟩
    · exact Or.inl hab
    · exact Or.inr ⟨he, by omega⟩
  · intro t _
    exact ⟨Nat.zero_le _, Nat.zero_le _⟩

theorem c1_token_stream_ordered_witness :
    0 ≤ (⟨0, 0, 1, 5, 0⟩ : SemanticToken).delta_line ∧
    0 ≤ (⟨0, 0, 1, 5, 0⟩ : SemanticToken).delta_start :=
  (c1_token_stream_ordered c1wit).2.2 ⟨0, 0, 1, 5, 0⟩ (by decide)

/-- C1 counterexample: the raw block `"a\n"` emits a zero-length line
token for its empty final line and resets the gap to (0, 0), so the
following token decodes to exactly the same absolute position — the
implied positions are not strictly increasing. -/
theorem c1_strictness_fails :
    decodeTokens (traverse_highlight c1ex) =
      [((0, 0), 2), ((1, 0), 0), ((1, 0), 1)] ∧
    ¬ List.Chain' strictPos (decodeTokens (traverse_highlight c1ex)) := by
  refine ⟨by decide, fun hch => ?_⟩
  rw [show decodeTokens (traverse_highlight c1ex) =
      [((0, 0), 2), ((1, 0), 0), ((1, 0), 1)] from by decide] at hch
  have h2 := (List.chain'_cons.mp (List.chain'_cons.mp hch).2).1
  simp [strictPos] at h2

/-! ### Claim C2 -/

mutual
theorem allNone_no_tokens (n : SyntaxNode) (ff : HighlightFeedForward)
    (h1 : allNone n = true) (h2 : noRawNl n = true) :
    (traverse_highlight_rec n ff).1 = [] := by
  cases n with
  | mk kind tag text children =>
    have htag : tag = TypstSemanticToken.None := by
      rw [allNone] at h1
      exact beq_iff_eq.mp (Bool.and_eq_true_iff.mp h1).1
    cases children with
    | nil =>
      have hraw : ¬ (kind = SyntaxKind.Raw ∧ containsNl text = true) := by
        rw [noRawNl] at h2
        intro ⟨ha, hb⟩
        subst ha
        simp [hb] at h2
      subst htag
      simp only [traverse_highlight_rec, emitNode]
      by_cases hs : (kind = SyntaxKind.Space ∨ kind = SyntaxKind.Parbreak) ∧
        containsNl text = true
      · rw [if_pos hs]
        simp [emitTok]
      · rw [if_neg hs, if_neg hraw]
        simp [emitTok]
    | cons c cs =>
      have hw : ¬ (tag = TypstSemanticToken.Emph ∨
          tag = TypstSemanticToken.Strong) := by
        subst htag
        intro hor
        rcases hor with h' | h' <;> exact absurd h' (by decide)
      simp only [traverse_highlight_rec, if_neg hw]
      rw [allNone] at h1
      rw [noRawNl] at h2
      exact allNone_no_tokens_list (.cons c cs) ff
        (Bool.and_eq_true_iff.mp h1).2 h2
theorem allNone_no_tokens_list (l : NodeList) (ff : HighlightFeedForward)
    (h1 : allNoneList l = true) (h2 : noRawNlList l = true) :
    (traverse_children l ff).1 = [] := by
  cases l with
  | nil => rfl
  | cons c cs =>
    rw [allNoneList] at h1
    rw [noRawNlList] at h2
    simp only [traverse_children]
    rw [allNone_no_tokens c ff (Bool.and_eq_true_iff.mp h1).1
      (Bool.and_eq_true_iff.mp h2).1]
    rw [allNone_no_tokens_list cs _ (Bool.and_eq_true_iff.mp h1).2
      (Bool.and_eq_true_iff.mp h2).2]
    rfl
end

/-- C2 (amended): at an emission point (a visited leaf) that is not
subject to the embedded-newline rules (not a whitespace/parbreak leaf
nor a raw leaf whose text contains a line break): a "no category"
result emits no token, adds the node's length to the pending column
gap and leaves the pending line gap unchanged; a real category emits
exactly one token carrying the pending (line, column) gap as deltas,
the node's text length and the category's index, after which the
pending gap becomes (0, node length).  Consequently a document all of
whose nodes are unclassified — and which contains no raw-block leaf
with an embedded line break — yields an empty token sequence. -/
theorem c2_emission_rules :
    (∀ kind tag text (ff : HighlightFeedForward),
      ¬ (((kind = SyntaxKind.Space ∨ kind = SyntaxKind.Parbreak) ∨
           kind = SyntaxKind.Raw) ∧ containsNl text = true) →
      (tag = TypstSemanticToken.None →
        traverse_highlight_rec (.mk kind tag text .nil) ff =
          ([], { delta_line := ff.delta_line,
                 delta_start := ff.delta_start + strLen text })) ∧
      (tag ≠ TypstSemanticToken.None →
        traverse_highlight_rec (.mk kind tag text .nil) ff =
          ([{ delta_line := ff.delta_line, delta_start := ff.delta_start,
              length := strLen text, token_type := to_idx tag,
              token_modifiers_bitset := 0 }],
           { delta_line := 0, delta_start := strLen text }))) ∧
    (∀ root, allNone root = true → noRawNl root = true →
      traverse_highlight root = []) := by
  constructor
  · intro kind tag text ff hn
    have hs : ¬ ((kind = SyntaxKind.Space ∨ kind = SyntaxKind.Parbreak) ∧
        containsNl text = true) := fun hsp => hn ⟨Or.inl hsp.1, hsp.2⟩
    have hr : ¬ (kind = SyntaxKind.Raw ∧ containsNl text = true) :=
      fun hra => hn ⟨Or.inr hra.1, hra.2⟩
    constructor
    · intro ht
      simp [traverse_highlight_rec, emitNode, emitTok, skipLine, skipStart,
        hs, hr, ht]
    · intro ht
      simp [traverse_highlight_rec, emitNode, emitTok, skipLine, skipStart,
        hs, hr, ht]
  · intro root h1 h2
    exact allNone_no_tokens root _ h1 h2

theorem c2_emission_rules_witness :
    traverse_highlight_rec
        (.mk SyntaxKind.Text TypstSemanticToken.Link ['h', 'i'] .nil)
        { delta_line := 2, delta_start := 3 } =
      ([{ delta_line := 2, delta_start := 3, length := 2, token_type := 5,
          token_modifiers_bitset := 0 }],
       { delta_line := 0, delta_start := 2 }) ∧
    traverse_highlight
        (.mk SyntaxKind.Markup TypstSemanticToken.None []
          (.cons (.mk SyntaxKind.Text TypstSemanticToken.None
            ['h', 'i'] .nil) .nil)) = [] := by
  constructor
  · exact (c2_emission_rules.1 SyntaxKind.Text TypstSemanticToken.Link
      ['h', 'i'] { delta_line := 2, delta_start := 3 } (by decide)).2 (by decide)
  · exact c2_emission_rules.2 _ (by decide) (by decide)

/-- C2 counterexample: visiting the unclassified whitespace leaf
`"\n"` does not leave the pending line gap unchanged while growing the
column gap — it moves the line gap to 1 and resets the column gap to
0, not the (0, 1) the claim's unconditional no-category rule
predicts. -/
theorem c2_newline_space_changes_line_gap :
    (traverse_highlight_rec c2ex { delta_line := 0, delta_start := 0 }).2 =
      { delta_line := 1, delta_start := 0 } ∧
    ({ delta_line := 1, delta_start := 0 } : HighlightFeedForward) ≠
      { delta_line := 0, delta_start := 1 } :=
  ⟨by decide, by decide⟩

/-! ### Claims C3 and C10: wrapper nodes are atomic -/

theorem strLen_append (a b : List Char) :
    strLen (a ++ b) = strLen a + strLen b := by
  rw [strLen, strLen, strLen, List.map_append, List.sum_append]

mutual
theorem rangeLen_eq_spanText (n : SyntaxNode) :
    rangeLen n = strLen (spanText n) := by
  cases n with
  | mk kind tag text children =>
    cases children with
    | nil => rfl
    | cons c cs =>
      rw [rangeLen, spanText]
      exact rangeLenList_eq_spanTextList (.cons c cs)
theorem rangeLenList_eq_spanTextList (l : NodeList) :
    rangeLenList l = strLen (spanTextList l) := by
  cases l with
  | nil => rfl
  | cons c cs =>
    rw [rangeLenList, spanTextList, strLen_append,
      rangeLen_eq_spanText c, rangeLenList_eq_spanTextList cs]
end

/-- A `Strong`/`Emph`-tagged node with children skips the children loop
and runs the emission tail on itself: its inner-node text is empty, so
neither newline rule fires, and exactly one token is pushed for the
whole span. -/
theorem traverse_wrapper (kind : SyntaxKind) (tag : TypstSemanticToken)
    (text : List Char) (c : SyntaxNode) (cs : NodeList)
    (ff : HighlightFeedForward)
    (h : tag = TypstSemanticToken.Emph ∨ tag = TypstSemanticToken.Strong) :
    traverse_highlight_rec (.mk kind tag text (.cons c cs)) ff =
      ([{ delta_line := ff.delta_line, delta_start := ff.delta_start,
          length := rangeLen (.mk kind tag text (.cons c cs)),
          token_type := to_idx tag, token_modifiers_bitset := 0 }],
       { delta_line := 0,
         delta_start := rangeLen (.mk kind tag text (.cons c cs)) }) := by
  have hne : ¬ tag = TypstSemanticToken.None := by
    rcases h with h | h <;> subst h <;> decide
  have hnl : containsNl [] = false := rfl
  simp only [traverse_highlight_rec, if_pos h, emitNode, hnl,
    Bool.false_eq_true, and_false, if_false, emitTok, if_neg hne,
    skipLine, skipStart, rangeLen]

/-- C3: for every composite node (at least one child) whose classifier
tag is one of the wrapper categories `Strong`/`Emph`, the encoder
emits exactly one token, carrying the pending gap and the whole node's
span length, none of the children being visited or emitted, and the
gap becomes (0, node length). -/
theorem c3_wrapper_atomic (kind : SyntaxKind) (tag : TypstSemanticToken)
    (text : List Char) (c : SyntaxNode) (cs : NodeList)
    (ff : HighlightFeedForward)
    (h : tag = TypstSemanticToken.Strong ∨ tag = TypstSemanticToken.Emph) :
    traverse_highlight_rec (.mk kind tag text (.cons c cs)) ff =
      ([{ delta_line := ff.delta_line, delta_start := ff.delta_start,
          length := rangeLen (.mk kind tag text (.cons c cs)),
          token_type := to_idx tag, token_modifiers_bitset := 0 }],
       { delta_line := 0,
         delta_start := rangeLen (.mk kind tag text (.cons c cs)) }) ∧
    ((traverse_highlight_rec (.mk kind tag text (.cons c cs)) ff).1).length
      = 1 := by
  have heq := traverse_wrapper kind tag text c cs ff h.symm
  exact ⟨heq, by rw [heq]; rfl⟩

theorem c3_wrapper_atomic_witness :
    traverse_highlight_rec c3ex { delta_line := 0, delta_start := 0 } =
      ([{ delta_line := 0, delta_start := 0, length := 4, token_type := 4,
          token_modifiers_bitset := 0 }],
       { delta_line := 0, delta_start := 4 }) ∧
    ((traverse_highlight_rec c3ex
        { delta_line := 0, delta_start := 0 }).1).length = 1 :=
  c3_wrapper_atomic SyntaxKind.Emph TypstSemanticToken.Emph []
    (.mk .Other .Punctuation ['_'] .nil)
    (.cons (.mk .Text .None ['h', 'i'] .nil)
      (.cons (.mk .Other .Punctuation ['_'] .nil) .nil))
    { delta_line := 0, delta_start := 0 } (Or.inr rfl)

/-- C10: a wrapper (`Strong`/`Emph`-tagged) composite node whose
spanned text contains one or more line breaks is still emitted as a
single token whose length counts the entire multi-line span, and the
pending gap afterwards is (0, whole node length) — the embedded line
breaks contribute nothing to the pending line gap, so later tokens'
deltas are computed as if the wrapper occupied a single line. -/
theorem c10_wrapper_multiline (kind : SyntaxKind) (tag : TypstSemanticToken)
    (text : List Char) (c : SyntaxNode) (cs : NodeList)
    (ff : HighlightFeedForward)
    (hw : tag = TypstSemanticToken.Strong ∨ tag = TypstSemanticToken.Emph)
    (_hnl : containsNl (spanText (.mk kind tag text (.cons c cs))) = true) :
    traverse_highlight_rec (.mk kind tag text (.cons c cs)) ff =
      ([{ delta_line := ff.delta_line, delta_start := ff.delta_start,
          length := strLen (spanText (.mk kind tag text (.cons c cs))),
          token_type := to_idx tag, token_modifiers_bitset := 0 }],
       { delta_line := 0,
         delta_start := strLen (spanText (.mk kind tag text (.cons c cs))) }) := by
  have heq := traverse_wrapper kind tag text c cs ff hw.symm
  rw [rangeLen_eq_spanText] at heq
  exact heq

theorem c10_wrapper_multiline_witness :
    traverse_highlight_rec c10ex { delta_line := 0, delta_start := 0 } =
      ([{ delta_line := 0, delta_start := 0, length := 5, token_type := 3,
          token_modifiers_bitset := 0 }],
       { delta_line := 0, delta_start := 5 }) :=
  c10_wrapper_multiline SyntaxKind.Strong TypstSemanticToken.Strong []
    (.mk .Other .Punctuation ['*'] .nil)
    (.cons (.mk .Text .None ['a', '\n', 'b'] .nil)
      (.cons (.mk .Other .Punctuation ['*'] .nil) .nil))
    { delta_line := 0, delta_start := 0 } (Or.inl rfl) (by decide)

/-! ### Claim C4: multiline raw blocks -/

/-- C4 (amended): for a raw-text-block leaf (classified `Raw`) whose
text contains k ≥ 1 line breaks (N = k + 1 lines), exactly N tokens
are emitted, all with the `Raw` type index: the first carries the
accumulated gap as its delta but its length is the byte length of the
WHOLE node (all lines and the line breaks themselves), and each of the
N - 1 subsequent tokens has line delta 1, column delta 0 and the
length of its own line; afterwards the pending gap is (0, length of
the last line). -/
theorem c4_raw_multiline (text : List Char) (ff : HighlightFeedForward)
    (h : containsNl text = true) :
    traverse_highlight_rec
        (.mk SyntaxKind.Raw TypstSemanticToken.Raw text .nil) ff =
      ({ delta_line := ff.delta_line, delta_start := ff.delta_start,
         length := strLen text, token_type := to_idx TypstSemanticToken.Raw,
         token_modifiers_bitset := 0 } :: rawLineTokens text,
       { delta_line := 0, delta_start := strLen (lastSeg text) }) ∧
    ((traverse_highlight_rec
        (.mk SyntaxKind.Raw TypstSemanticToken.Raw text .nil) ff).1).length
      = countNewlines text + 1 := by
  have hsp : ¬ ((SyntaxKind.Raw = SyntaxKind.Space ∨
      SyntaxKind.Raw = SyntaxKind.Parbreak) ∧ containsNl text = true) := by
    intro hx
    rcases hx.1 with h' | h' <;> exact absurd h' (by decide)
  have hra : SyntaxKind.Raw = SyntaxKind.Raw ∧ containsNl text = true :=
    ⟨rfl, h⟩
  have hne : ¬ TypstSemanticToken.Raw = TypstSemanticToken.None := by decide
  have hk : ¬ (SyntaxKind.Raw = SyntaxKind.Space ∨
      SyntaxKind.Raw = SyntaxKind.Parbreak) := by decide
  constructor
  · simp only [traverse_highlight_rec, emitNode, if_neg hsp, if_pos hra, h,
      and_true, true_and, if_true, if_neg hk, emitTok, if_neg hne,
      List.singleton_append]
  · simp only [traverse_highlight_rec, emitNode, if_neg hsp, if_pos hra, h,
      and_true, true_and, if_true, if_neg hk, emitTok, if_neg hne,
      List.singleton_append, List.length_cons, rawLineTokens,
      List.length_map, List.length_drop, splitNl_length]
    omega

/-- C4 counterexample: for the two-line raw block "ab\ncd" (lines "ab"
and "cd") the emitted token lengths are [5, 2]: the first token's
length is 5, the whole node's byte length, not 2, the character count
of its first line as the claim states. -/
theorem c4_first_token_spans_whole_node :
    ((traverse_highlight_rec c4ex
        { delta_line := 0, delta_start := 0 }).1).map SemanticToken.length
      = [5, 2] ∧
    strLen ['a', 'b'] = 2 ∧ (5 : Nat) ≠ 2 :=
  ⟨by decide, by decide, by decide⟩

theorem c4_raw_multiline_witness :
    traverse_highlight_rec c4ex { delta_line := 0, delta_start := 0 } =
      ([{ delta_line := 0, delta_start := 0, length := 5, token_type := 6,
          token_modifiers_bitset := 0 },
        { delta_line := 1, delta_start := 0, length := 2, token_type := 6,
          token_modifiers_bitset := 0 }],
       { delta_line := 0, delta_start := 2 }) ∧
    ((traverse_highlight_rec c4ex
        { delta_line := 0, delta_start := 0 }).1).length = 1 + 1 :=
  ⟨(c4_raw_multiline ['a', 'b', '\n', 'c', 'd']
      { delta_line := 0, delta_start := 0 } (by decide)).1,
   (c4_raw_multiline ['a', 'b', '\n', 'c', 'd']
      { delta_line := 0, delta_start := 0 } (by decide)).2⟩

/-! ### Claim C5: whitespace containing line breaks -/

/-- C5: visiting an unclassified whitespace-run or paragraph-break
leaf whose text contains k ≥ 1 line breaks increases the pending line
gap by k and resets the pending column gap to the length of the text
following the last line break, discarding the column gap that preceded
the node (no token is emitted). -/
theorem c5_whitespace_newlines (kind : SyntaxKind) (text : List Char)
    (ff : HighlightFeedForward)
    (hk : kind = SyntaxKind.Space ∨ kind = SyntaxKind.Parbreak)
    (h : containsNl text = true) :
    traverse_highlight_rec (.mk kind TypstSemanticToken.None text .nil) ff =
      ([], { delta_line := ff.delta_line + countNewlines text,
             delta_start := strLen (lastSeg text) }) := by
  have hsp : (kind = SyntaxKind.Space ∨ kind = SyntaxKind.Parbreak) ∧
      containsNl text = true := ⟨hk, h⟩
  simp [traverse_highlight_rec, emitNode, if_pos hsp, emitTok, skipLine]

theorem c5_whitespace_newlines_witness :
    traverse_highlight_rec
        (.mk SyntaxKind.Space TypstSemanticToken.None ['\n', ' '] .nil)
        { delta_line := 2, delta_start := 7 } =
      ([], { delta_line := 3, delta_start := 1 }) :=
  c5_whitespace_newlines SyntaxKind.Space ['\n', ' ']
    { delta_line := 2, delta_start := 7 } (Or.inl rfl) (by decide)

/-! ### Claim C6: measurement units of lengths and deltas -/

/-- C6: the encoder emits `node.range().len()` and `str::len` values —
UTF-8 byte counts — with no conversion anywhere: over the text "é" the
emitted token carries length 2, while the editor protocol's UTF-16
count of the same text is 1. -/
theorem c6_lengths_are_bytes_not_utf16 :
    traverse_highlight c6ex =
      [{ delta_line := 0, delta_start := 0, length := 2, token_type := 5,
         token_modifiers_bitset := 0 }] ∧
    utf16Len ['é'] = 1 ∧ strLen ['é'] = 2 ∧ (2 : Nat) ≠ 1 :=
  ⟨by decide, by decide, by decide, by decide⟩

/-! ### Claim C7: the document store handlers -/

/-- C7 (the code violates the claim): a token request and a change for
a uri with no store entry both hit the `unwrap()` of the missing map
entry and abort the whole process instead of producing a request-level
error response. -/
theorem c7_unopened_uri_panics :
    semantic_tokens_full [] "file:///main.typ" anyParse =
      ServerOutcome.panicked ∧
    did_change [] "file:///main.typ"
      [{ range := Option.none, text := ['x'] }] = ServerOutcome.panicked :=
  ⟨rfl, rfl⟩

/-! ### Claim C8: the heading/bold scenario -/

/-- C8: over the scenario tree exactly two tokens are emitted: one
covering the whole `# Title` (7 bytes), classified Heading, with line
delta 0 and column delta 0; and one covering `*bold*` (6 bytes),
classified Strong, with line delta 1 and column delta 0. -/
theorem c8_heading_bold_scenario :
    traverse_highlight c8ex =
      [{ delta_line := 0, delta_start := 0, length := 7,
         token_type := to_idx TypstSemanticToken.Heading,
         token_modifiers_bitset := 0 },
       { delta_line := 1, delta_start := 0, length := 6,
         token_type := to_idx TypstSemanticToken.Strong,
         token_modifiers_bitset := 0 }] := by decide

/-! ### Claim C9: the legend and the wire indices -/

theorem legend_at_idx (cat : TypstSemanticToken) :
    token_types_legend[to_idx cat]? = Option.some (to_name cat) ∧
    token_types_legend.indexOf (to_name cat) = to_idx cat := by
  cases cat <;> exact ⟨rfl, rfl⟩

theorem emitTok_classified (tag : TypstSemanticToken) (node_len : Nat)
    (ff : HighlightFeedForward) :
    ∀ tok ∈ emitTok tag node_len ff,
      ∃ cat, cat ≠ TypstSemanticToken.None ∧ tok.token_type = to_idx cat := by
  intro tok htok
  rw [emitTok] at htok
  by_cases ht : tag = TypstSemanticToken.None
  · rw [if_pos ht] at htok
    exact absurd htok (List.not_mem_nil tok)
  · rw [if_neg ht] at htok
    have := List.mem_singleton.mp htok
    subst this
    exact ⟨tag, ht, rfl⟩

theorem emit_classified (kind : SyntaxKind) (tag : TypstSemanticToken)
    (text : List Char) (node_len : Nat) (ff : HighlightFeedForward) :
    ∀ tok ∈ (emitNode kind tag text node_len ff).1,
      ∃ cat, cat ≠ TypstSemanticToken.None ∧ tok.token_type = to_idx cat := by
  intro tok htok
  rw [emitNode] at htok
  by_cases h1 : (kind = SyntaxKind.Space ∨ kind = SyntaxKind.Parbreak) ∧
    containsNl text = true
  · rw [if_pos h1] at htok
    exact emitTok_classified tag node_len ff tok htok
  · rw [if_neg h1] at htok
    by_cases h2 : kind = SyntaxKind.Raw ∧ containsNl text = true
    · rw [if_pos h2] at htok
      rcases List.mem_append.mp htok with hm | hm
      · exact emitTok_classified tag node_len ff tok hm
      · rw [rawLineTokens] at hm
        rcases List.mem_map.mp hm with ⟨line, _, rfl⟩
        exact ⟨TypstSemanticToken.Raw, by decide, rfl⟩
    · rw [if_neg h2] at htok
      exact emitTok_classified tag node_len ff tok htok

mutual
theorem rec_classified (n : SyntaxNode) (ff : HighlightFeedForward) :
    ∀ tok ∈ (traverse_highlight_rec n ff).1,
      ∃ cat, cat ≠ TypstSemanticToken.None ∧ tok.token_type = to_idx cat := by
  cases n with
  | mk kind tag text children =>
    cases children with
    | nil =>
      intro tok htok
      simp only [traverse_highlight_rec] at htok
      exact emit_classified kind tag text (strLen text) ff tok htok
    | cons c cs =>
      by_cases hw : tag = TypstSemanticToken.Emph ∨
        tag = TypstSemanticToken.Strong
      · intro tok htok
        simp only [traverse_highlight_rec, if_pos hw] at htok
        exact emit_classified kind tag [] (rangeLenList (.cons c cs)) ff
          tok htok
      · intro tok htok
        simp only [traverse_highlight_rec, if_neg hw] at htok
        exact children_classified (.cons c cs) ff tok htok
theorem children_classified (l : NodeList) (ff : HighlightFeedForward) :
    ∀ tok ∈ (traverse_children l ff).1,
      ∃ cat, cat ≠ TypstSemanticToken.None ∧ tok.token_type = to_idx cat := by
  cases l with
  | nil =>
    intro tok htok
    exact absurd htok (List.not_mem_nil tok)
  | cons c cs =>
    intro tok htok
    simp only [traverse_children] at htok
    rcases List.mem_append.mp htok with hm | hm
    · exact rec_classified c ff tok hm
    · exact children_classified cs (traverse_highlight_rec c ff).2 tok hm
end

/-- C9: the wire-level type index of every category equals the
position of that category's name in the legend advertised once at
initialization (a pure, session-stable assignment), and every token
the encoder ever emits carries the index of some real category, whose
name the legend holds at exactly that position. -/
theorem c9_legend_stable_indices :
    (∀ cat : TypstSemanticToken,
      token_types_legend[to_idx cat]? = Option.some (to_name cat) ∧
      token_types_legend.indexOf (to_name cat) = to_idx cat) ∧
    (∀ root tok, tok ∈ traverse_highlight root →
      ∃ cat, cat ≠ TypstSemanticToken.None ∧ tok.token_type = to_idx cat ∧
        token_types_legend[tok.token_type]? = Option.some (to_name cat)) := by
  refine ⟨legend_at_idx, ?_⟩
  intro root tok htok
  rcases rec_classified root { delta_line := 0, delta_start := 0 } tok htok
    with ⟨cat, hne, hidx⟩
  refine ⟨cat, hne, hidx, ?_⟩
  rw [hidx]
  exact (legend_at_idx cat).1

theorem c9_legend_stable_indices_witness :
    ∃ cat, cat ≠ TypstSemanticToken.None ∧
      ({ delta_line := 0, delta_start := 0, length := 4, token_type := 14,
         token_modifiers_bitset := 0 } : SemanticToken).token_type
        = to_idx cat ∧
      token_types_legend[(14 : Nat)]? = Option.some (to_name cat) :=
  c9_legend_stable_indices.2 c9ex
    { delta_line := 0, delta_start := 0, length := 4, token_type := 14,
      token_modifiers_bitset := 0 } (by decide)

end TypstSemTok
